import Mathlib

/-!
Verification of the findyourroot backend core against its specification.

The Go sources are shallowly embedded: Firestore collections become Lean
lists of records, handlers become pure state-transforming functions that
return the HTTP status code they would emit, and transactions that abort
leave the state unchanged.  Field and function names follow the Go source
(`internal/models/models.go`, `internal/handlers/*.go`,
`internal/middleware/auth.go`, and the bulk-import / permission-request
handlers).  Statuses and roles are strings, exactly as in the Go code,
which declares them as string-typed constants and compares them literally.
-/

namespace FindYourRoot

/-! ## Role lattice — `internal/models/models.go` and `internal/middleware/auth.go` -/

/-- The five role tags of `models.UserRole`
(`viewer`, `contributor`, `editor`, `co-admin`, `admin`). -/
inductive UserRole where
  | viewer
  | contributor
  | editor
  | coAdmin
  | admin
deriving DecidableEq

/-- `UserRole.CanApprove` — true for co-admin and admin (models.go). -/
def canApprove : UserRole → Bool
  | .coAdmin => true
  | .admin => true
  | _ => false

/-- `UserRole.CanEditDirectly` — true for editor, co-admin and admin (models.go). -/
def canEditDirectly : UserRole → Bool
  | .editor => true
  | .coAdmin => true
  | .admin => true
  | _ => false

/-- `UserRole.CanManageUsers` — true only for admin (models.go). -/
def canManageUsers : UserRole → Bool
  | .admin => true
  | _ => false

/-- The suggestion gate of `middleware.RequireContributor`: the request passes
iff the role is contributor, editor, co-admin or admin
(`internal/middleware/auth.go`, the role test inside `RequireContributor`). -/
def canSuggest : UserRole → Bool
  | .contributor => true
  | .editor => true
  | .coAdmin => true
  | .admin => true
  | _ => false

/-! ## Person documents and likes — `internal/handlers/firestore_tree.go` -/

/-- A `people` document (`models.Person`).  `likesCount` is a Go `int`,
so it is modelled as `Int`. -/
structure Person where
  id : String
  name : String := ""
  role : String := ""
  birth : String := ""
  location : String := ""
  avatar : String := ""
  bio : String := ""
  gender : String := ""
  children : List String := []
  createdBy : String := ""
  linkedUserId : String := ""
  instagramUsername : String := ""
  likedBy : List String := []
  likesCount : Int := 0
deriving DecidableEq, Repr

/-- Firestore `ArrayUnion` on a string array: appends the element unless it
is already present. -/
def arrayUnion (l : List String) (x : String) : List String :=
  if x ∈ l then l else l ++ [x]

/-- Firestore `ArrayRemove` on a string array: removes every occurrence. -/
def arrayRemove (l : List String) (x : String) : List String :=
  l.filter (fun y => y ≠ x)

/-- Errors returned from inside the like/unlike transactions
(`fmt.Errorf("already liked")`, `fmt.Errorf("not liked")`). -/
inductive LikeError where
  | alreadyLiked
  | notLiked
deriving DecidableEq

/-- The transaction body of `LikePerson` (firestore_tree.go): re-reads the
person, rejects a duplicate like, otherwise `ArrayUnion`s the user into
`liked_by` and writes `likes_count = person.LikesCount + 1`. -/
def likeTx (p : Person) (uid : String) : Except LikeError Person :=
  if uid ∈ p.likedBy then
    .error .alreadyLiked
  else
    .ok { p with likedBy := arrayUnion p.likedBy uid,
                 likesCount := p.likesCount + 1 }

/-- The `LikePerson` handler: a failed transaction leaves the document
unchanged; "already liked" is mapped to HTTP 409, any other error to 500,
success to 200. -/
def likePerson (p : Person) (uid : String) : Nat × Person :=
  match likeTx p uid with
  | .error .alreadyLiked => (409, p)
  | .error _ => (500, p)
  | .ok p' => (200, p')

/-- The transaction body of `UnlikePerson` (firestore_tree.go): rejects a
missing like, otherwise `ArrayRemove`s the user and writes
`newCount = LikesCount - 1`, replaced by `0` when negative. -/
def unlikeTx (p : Person) (uid : String) : Except LikeError Person :=
  if uid ∈ p.likedBy then
    let newCount := p.likesCount - 1
    let newCount := if newCount < 0 then 0 else newCount
    .ok { p with likedBy := arrayRemove p.likedBy uid, likesCount := newCount }
  else
    .error .notLiked

/-- The `UnlikePerson` handler: "not liked" becomes HTTP 409, other errors
500, success 200. -/
def unlikePerson (p : Person) (uid : String) : Nat × Person :=
  match unlikeTx p uid with
  | .error .notLiked => (409, p)
  | .error _ => (500, p)
  | .ok p' => (200, p')

/-! ## Users, suggestions, claims and the database state -/

/-- A `users` document (`models.User`).  The struct declares a stored
`person_id` attribute (`PersonID string firestore:"person_id"`). -/
structure User where
  id : String
  email : String := ""
  role : String := ""
  treeName : String := ""
  fatherName : String := ""
  birthYear : String := ""
  isVerified : Bool := false
  personId : String := ""
deriving DecidableEq, Repr

/-- The `person_data` payload of a suggestion (`models.PersonData`). -/
structure PersonData where
  name : String := ""
  role : String := ""
  birth : String := ""
  location : String := ""
  avatar : String := ""
  bio : String := ""
  gender : String := ""
deriving DecidableEq, Repr

/-- A `suggestions` document (`models.Suggestion`); `type` is one of
"add"/"edit"/"delete" and `status` one of "pending"/"approved"/"rejected". -/
structure Suggestion where
  id : String
  type : String
  targetPersonId : String := ""
  personData : Option PersonData := none
  message : String := ""
  status : String := "pending"
  userId : String := ""
  userEmail : String := ""
  reviewedBy : String := ""
  reviewerEmail : String := ""
  reviewNotes : String := ""
deriving DecidableEq, Repr

/-- An `identity_claims` document (`models.IdentityClaimRequest`). -/
structure IdentityClaim where
  id : String
  userId : String := ""
  userEmail : String := ""
  personId : String := ""
  personName : String := ""
  message : String := ""
  status : String := "pending"
  reviewedBy : String := ""
  reviewNotes : String := ""
deriving DecidableEq, Repr

/-- A `permission_requests` document (`models.PermissionRequest`). -/
structure PermissionRequest where
  id : String
  userId : String := ""
  userEmail : String := ""
  requestedRole : String := ""
  message : String := ""
  status : String := "pending"
deriving DecidableEq, Repr

/-- The Firestore collections the embedded handlers touch. -/
structure DB where
  people : List Person := []
  users : List User := []
  suggestions : List Suggestion := []
  claims : List IdentityClaim := []
  permissionRequests : List PermissionRequest := []
deriving DecidableEq, Repr

/-- `u` has a *derived* link to person `pid` in `db`: some `people` document
with id `pid` has `linked_user_id = u` (the association the spec derives by
`WHERE linked_user_id = me` on Person). -/
def derivedLink (db : DB) (uid pid : String) : Prop :=
  ∃ p ∈ db.people, p.id = pid ∧ p.linkedUserId = uid ∧ uid ≠ ""

instance (db : DB) (uid pid : String) : Decidable (derivedLink db uid pid) := by
  unfold derivedLink; infer_instance

/-! ## Referential-integrity cascade — `internal/handlers/auth.go`
(`ReferentialIntegrityService`) -/

/-- Step 1 of `OnPersonDeleted`: `clearUserPersonLinks` queries `users`
where the stored `person_id` equals the deleted person and writes
`person_id = ""` and `tree_name = ""` on each match. -/
def clearUserPersonLinks (pid : String) (db : DB) : DB :=
  { db with users := db.users.map fun u =>
      if u.personId = pid then { u with personId := "", treeName := "" } else u }

/-- Step 2 of `OnPersonDeleted`: `removeFromParentChildren` removes the
deleted id from every `children` array containing it (`ArrayRemove`). -/
def removeFromParentChildren (pid : String) (db : DB) : DB :=
  { db with people := db.people.map fun p =>
      if pid ∈ p.children then { p with children := arrayRemove p.children pid }
      else p }

/-- Step 4 of `OnPersonDeleted`: `invalidateSuggestionsForPerson` sets every
pending suggestion with `target_person_id = pid` to rejected with the
auto-rejection note. -/
def invalidateSuggestionsForPerson (pid : String) (db : DB) : DB :=
  { db with suggestions := db.suggestions.map fun s =>
      if s.targetPersonId = pid ∧ s.status = "pending" then
        { s with status := "rejected",
                 reviewNotes := "Auto-rejected: Target person was deleted" }
      else s }

/-- Step 5 of `OnPersonDeleted`: `rejectIdentityClaimsForPerson` rejects
every pending identity claim whose `person_id` is the deleted person. -/
def rejectIdentityClaimsForPerson (pid : String) (db : DB) : DB :=
  { db with claims := db.claims.map fun c =>
      if c.personId = pid ∧ c.status = "pending" then
        { c with status := "rejected",
                 reviewNotes := "Auto-rejected: Person was deleted from tree" }
      else c }

/-- `OnPersonDeleted`: the four state-changing cleanup steps in source
order (step 3 intentionally leaves orphaned children as roots).  Each
best-effort step is modelled as succeeding. -/
def onPersonDeleted (pid : String) (db : DB) : DB :=
  rejectIdentityClaimsForPerson pid
    (invalidateSuggestionsForPerson pid
      (removeFromParentChildren pid
        (clearUserPersonLinks pid db)))

/-! ## Identity-link service — `internal/handlers/identity_claim.go` -/

/-- `ReviewIdentityClaim`: 404 when the claim is absent, 400 when it is no
longer pending; otherwise one transaction updates the claim status and, on
approval, sets `is_verified = true` on the claiming user and
`linked_user_id = claim.user_id` on the person.  A transactional update of
a missing user or person document aborts the whole transaction (HTTP 500,
nothing written).  The user's `person_id` is never written. -/
def reviewIdentityClaim (db : DB) (claimId : String) (approved : Bool)
    (notes adminId : String) : Nat × DB :=
  match db.claims.find? (fun c => c.id == claimId) with
  | none => (404, db)
  | some claim =>
    if claim.status ≠ "pending" then (400, db)
    else
      let newStatus := if approved then "approved" else "rejected"
      let claims' := db.claims.map fun c =>
        if c.id = claimId then
          { c with status := newStatus, reviewedBy := adminId, reviewNotes := notes }
        else c
      if approved then
        if (db.users.find? (fun u => u.id == claim.userId)).isSome ∧
            (db.people.find? (fun p => p.id == claim.personId)).isSome then
          (200, { db with
            claims := claims',
            users := db.users.map fun u =>
              if u.id = claim.userId then { u with isVerified := true } else u,
            people := db.people.map fun p =>
              if p.id = claim.personId then { p with linkedUserId := claim.userId }
              else p })
        else (500, db)
      else (200, { db with claims := claims' })

/-- `UnlinkIdentity`: locates the (first) person whose `linked_user_id`
is the given user and clears that field; 400 when no person links to the
user.  No `users` document is written. -/
def unlinkIdentity (db : DB) (uid : String) : Nat × DB :=
  match db.people.find? (fun p => p.linkedUserId == uid) with
  | none => (400, db)
  | some pd =>
    (200, { db with people := db.people.map fun p =>
        if p.id = pd.id then { p with linkedUserId := "" } else p })

/-- `LinkUserToPerson`: admin may link anyone, a co-admin only themselves;
the user must exist, must not already have a derived link, and the person
must exist and be unclaimed.  Only the person document is written:
`linked_user_id` and, when supplied, `instagram_username` (the optional
profile-fetch adapter is external and modelled as absent). -/
def linkUserToPerson (db : DB) (actorRole actorId reqUserId reqPersonId
    igUsername : String) : Nat × DB :=
  if ¬(actorRole = "admin" ∨ (actorRole = "co-admin" ∧ actorId = reqUserId)) then
    (403, db)
  else if (db.users.find? (fun u => u.id == reqUserId)).isNone then (404, db)
  else if (db.people.find? (fun p => p.linkedUserId == reqUserId)).isSome then
    (400, db)
  else
    match db.people.find? (fun p => p.id == reqPersonId) with
    | none => (404, db)
    | some person =>
      if person.linkedUserId ≠ "" then (400, db)
      else
        (200, { db with people := db.people.map fun p =>
            if p.id = reqPersonId then
              (if igUsername ≠ "" then
                { p with linkedUserId := reqUserId, instagramUsername := igUsername }
              else { p with linkedUserId := reqUserId })
            else p })

/-! ## Permission requests — the five-role `FirestoreAuthHandler.RequestPermission`
(the repository also carries an older two-role variant accepting only
editor/admin; the version embedded here is the five-role one the spec was
written from). -/

/-- `RequestPermission`: rejects a `requested_role` outside
{contributor, co-admin, admin} with 400 before anything else, answers 409
when the user already has a pending request, and otherwise persists a new
pending `PermissionRequest` (201).  `newId` stands for the generated
document id. -/
def requestPermission (db : DB) (uid email requestedRole message newId : String) :
    Nat × DB :=
  if requestedRole ≠ "contributor" ∧ requestedRole ≠ "co-admin" ∧
      requestedRole ≠ "admin" then
    (400, db)
  else if db.permissionRequests.any
      (fun r => r.userId == uid && r.status == "pending") then
    (409, db)
  else
    (201, { db with permissionRequests := db.permissionRequests ++
        [{ id := newId, userId := uid, userEmail := email,
           requestedRole := requestedRole, message := message,
           status := "pending" }] })

/-! ## Tree deletion — `internal/handlers/firestore_tree.go` (`DeletePerson`) -/

/-- The `DeletePerson` handler: 404 when the person is absent, 403 unless
the actor created the node or is admin, otherwise the cascade runs and the
document is deleted, answering 200. -/
def deletePerson (db : DB) (pid actorId actorRole : String) : Nat × DB :=
  match db.people.find? (fun p => p.id == pid) with
  | none => (404, db)
  | some person =>
    if person.createdBy ≠ actorId ∧ actorRole ≠ "admin" then (403, db)
    else
      let db1 := onPersonDeleted pid db
      (200, { db1 with people := db1.people.filter (fun p => p.id ≠ pid) })

/-! ## Suggestion execution and review —
`internal/handlers/firestore_suggestions.go` -/

/-- `executeAdd`: builds the new person from the payload and either writes
it stand-alone or, when `target_person_id` names a parent, appends the
fresh id to the parent's `children` in the same transaction (failing when
the parent is absent).  `freshId` stands for the generated UUID. -/
def executeAdd (db : DB) (s : Suggestion) (freshId : String) : Except String DB :=
  match s.personData with
  | none => .error "no person data"
  | some pd =>
    let person : Person :=
      { id := freshId, name := pd.name, role := pd.role, gender := pd.gender,
        birth := pd.birth, location := pd.location,
        avatar := pd.avatar, bio := pd.bio,
        children := [], createdBy := s.userId }
    if s.targetPersonId ≠ "" then
      match db.people.find? (fun p => p.id == s.targetPersonId) with
      | none => .error "parent not found"
      | some _ =>
        .ok { db with people :=
          (db.people.map fun p =>
            if p.id = s.targetPersonId then
              { p with children := p.children ++ [freshId] }
            else p) ++ [person] }
    else
      .ok { db with people := db.people ++ [person] }

/-- `executeEdit`: overwrites exactly the non-empty string fields of the
payload onto the target person (the Firestore `Update` fails when the
target document is absent). -/
def applyEditPayload (pd : PersonData) (p : Person) : Person :=
  let p := if pd.name ≠ "" then { p with name := pd.name } else p
  let p := if pd.role ≠ "" then { p with role := pd.role } else p
  let p := if pd.birth ≠ "" then { p with birth := pd.birth } else p
  let p := if pd.location ≠ "" then { p with location := pd.location } else p
  let p := if pd.avatar ≠ "" then { p with avatar := pd.avatar } else p
  let p := if pd.bio ≠ "" then { p with bio := pd.bio } else p
  p

/-- `executeEdit` as a state transformer. -/
def executeEdit (db : DB) (s : Suggestion) : Except String DB :=
  match s.personData with
  | none => .error "no person data"
  | some pd =>
    if (db.people.find? (fun p => p.id == s.targetPersonId)).isSome then
      .ok { db with people := db.people.map fun p =>
        if p.id = s.targetPersonId then applyEditPayload pd p else p }
    else
      .error "person not found"

/-- `executeDelete`: fails when the target is absent; otherwise one
transaction removes the target id from every parent's `children` and
deletes the target document.  It does **not** invoke the
referential-integrity cascade. -/
def executeDelete (db : DB) (s : Suggestion) : Except String DB :=
  match db.people.find? (fun p => p.id == s.targetPersonId) with
  | none => .error "person not found"
  | some _ =>
    let people1 := db.people.map fun p =>
      if s.targetPersonId ∈ p.children then
        { p with children := p.children.filter (fun c => c ≠ s.targetPersonId) }
      else p
    .ok { db with people := people1.filter (fun p => p.id ≠ s.targetPersonId) }

/-- `executeSuggestion`: dispatch on the suggestion type. -/
def executeSuggestion (db : DB) (s : Suggestion) (freshId : String) :
    Except String DB :=
  if s.type = "add" then executeAdd db s freshId
  else if s.type = "edit" then executeEdit db s
  else if s.type = "delete" then executeDelete db s
  else .error "unknown suggestion type"

/-- The status write at the end of `ReviewSuggestion`. -/
def setSuggestionStatus (db : DB) (sid newStatus reviewerId reviewerEmail
    notes : String) : DB :=
  { db with suggestions := db.suggestions.map fun s =>
      if s.id = sid then
        { s with status := newStatus, reviewedBy := reviewerId,
                 reviewerEmail := reviewerEmail, reviewNotes := notes }
      else s }

/-- The `ReviewSuggestion` handler: 404 when the suggestion is absent,
400 ("Suggestion has already been reviewed" — the spec's `Precondition`
kind) when its status is not pending, 500 when an approved execution
fails (aborting before any status write), otherwise execution (on
approval) followed by the status update, answering 200. -/
def reviewSuggestion (db : DB) (sid : String) (approved : Bool)
    (notes reviewerId reviewerEmail freshId : String) : Nat × DB :=
  match db.suggestions.find? (fun s => s.id == sid) with
  | none => (404, db)
  | some s =>
    if s.status ≠ "pending" then (400, db)
    else
      let newStatus := if approved then "approved" else "rejected"
      if approved then
        match executeSuggestion db s freshId with
        | .error _ => (500, db)
        | .ok db1 =>
          (200, setSuggestionStatus db1 sid newStatus reviewerId reviewerEmail notes)
      else
        (200, setSuggestionStatus db sid newStatus reviewerId reviewerEmail notes)

/-! ## Grouped-suggestion conflict detection —
`firestore_suggestions.go` (`detectConflicts`) -/

/-- A `GroupedSuggestion` as produced by `groupSuggestions` (only the
fields `detectConflicts` reads or writes are kept; fresh groups start
unflagged with an empty `conflicts_with`). -/
structure GroupedSuggestion where
  groupId : String
  type : String
  targetPersonId : String := ""
  hasConflicts : Bool := false
  conflictsWith : List String := []
  conflictType : String := ""
deriving DecidableEq, Repr

/-- Replace the element at position `i` (the Go code mutates the group
structs in the slice through pointers). -/
def updateAt {α : Type} : List α → Nat → (α → α) → List α
  | [], _, _ => []
  | x :: xs, 0, f => f x :: xs
  | x :: xs, n + 1, f => x :: updateAt xs n f

/-- One conflict mark: set `has_conflicts`, append the other group's id to
`conflicts_with`, overwrite `conflict_type`. -/
def markConflict (gs : List GroupedSuggestion) (i : Nat) (otherId ct : String) :
    List GroupedSuggestion :=
  updateAt gs i fun g =>
    { g with hasConflicts := true,
             conflictsWith := g.conflictsWith ++ [otherId],
             conflictType := ct }

/-- The per-target body of `detectConflicts`: the delete/edit cross-flag
uses the single `deleteGroup`/`editGroup` variables, which the Go loop
leaves holding the *last* group of each type in bucket order; the
edit-edit pass then flags every ordered pair of distinct edit groups. -/
def detectBucket (gs : List GroupedSuggestion) (t : String) :
    List GroupedSuggestion :=
  let affected := gs.enum.filter (fun e => e.2.targetPersonId == t)
  if affected.length ≤ 1 then gs
  else
    let dels := affected.filter (fun e => e.2.type == "delete")
    let edits := affected.filter (fun e => e.2.type == "edit")
    let gs1 :=
      match dels.getLast?, edits.getLast? with
      | some d, some e =>
        markConflict
          (markConflict gs d.1 e.2.groupId
            ("Conflicts with edit suggestion for person " ++ t))
          e.1 d.2.groupId
          ("Conflicts with delete suggestion for person " ++ t)
      | _, _ => gs
    if 1 < edits.length then
      edits.foldl (fun acc gi =>
        edits.foldl (fun acc2 gj =>
          if gi.1 ≠ gj.1 then
            markConflict acc2 gi.1 gj.2.groupId
              "Multiple different edit suggestions for the same person"
          else acc2) acc) gs1
    else gs1

/-- The non-empty targets in order of first appearance.  (Go iterates the
`personGroups` map in unspecified order; buckets touch disjoint groups, so
any order yields the same result — first-appearance order is the
representative used here.) -/
def distinctTargets (gs : List GroupedSuggestion) : List String :=
  gs.foldl (fun acc g =>
    if g.targetPersonId ≠ "" ∧ g.targetPersonId ∉ acc then
      acc ++ [g.targetPersonId]
    else acc) []

/-- `detectConflicts`: run the per-target pass over every shared target. -/
def detectConflicts (gs : List GroupedSuggestion) : List GroupedSuggestion :=
  (distinctTargets gs).foldl detectBucket gs

/-! ## Bulk text import — `PopulateTreeFromText`
(the newest tree handler; the name/gender/birth parsing of a line does not
matter for the tree shape, so only the depth computation and the
stack-based edge derivation are embedded). -/

/-- The whitespace characters of Go's `strings.TrimSpace` (ASCII range;
lines have already been split on newline). -/
def isWS (c : Char) : Bool :=
  c = ' ' || c = '\t' || c = '\n' || c = '\r' ||
  c = Char.ofNat 11 || c = Char.ofNat 12

/-- Leading-whitespace count of a line: a tab counts as 4 spaces, a space
as 1, and counting stops at the first other character. -/
def leadingSpaces : List Char → Nat
  | [] => 0
  | c :: rest =>
    if c = '\t' then 4 + leadingSpaces rest
    else if c = ' ' then 1 + leadingSpaces rest
    else 0

/-- `strings.Split(text, "\n")`. -/
def splitLines : List Char → List (List Char)
  | [] => [[]]
  | c :: rest =>
    if c = '\n' then [] :: splitLines rest
    else
      match splitLines rest with
      | [] => [[c]]
      | l :: ls => (c :: l) :: ls

/-- The per-line loop of `PopulateTreeFromText` restricted to what shapes
the tree: skip blank lines, set the indent unit from the first indented
line, and compute `level = spaces / unit` (0 when the unit is unset or the
line is unindented). -/
def computeLevelsGo : List (List Char) → Nat → List Nat
  | [], _ => []
  | line :: rest, unit =>
    if line.all isWS then computeLevelsGo rest unit
    else
      let sp := leadingSpaces line
      let unit' := if 0 < sp ∧ unit = 0 then sp else unit
      let lvl := if 0 < unit' ∧ 0 < sp then sp / unit' else 0
      lvl :: computeLevelsGo rest unit'

/-- The depth of every non-blank line of the import text, in line order. -/
def parseLevels (text : List Char) : List Nat :=
  computeLevelsGo (splitLines text) 0

/-- The stack loop of `PopulateTreeFromText`: for each node in line order,
pop while the stack top's level is ≥ this node's level; the new top (if
any) is the parent.  Entries are `(index, level)` pairs; the head of the
list is the top of the stack. -/
def buildParentsGo : List (Nat × Nat) → List (Nat × Nat) → List (Option Nat)
  | [], _ => []
  | (i, l) :: rest, stack =>
    let stack' := stack.dropWhile (fun top => l ≤ top.2)
    (stack'.head?.map (fun top => top.1)) :: buildParentsGo rest ((i, l) :: stack')

/-- The parent (as a node index) assigned to each node by the stack loop. -/
def buildParents (levels : List Nat) : List (Option Nat) :=
  buildParentsGo levels.enum []

/-- The final `Children` list of node `p`: the Go loop appends each node's
id to its parent's `Children` as the node is processed, so `p`'s children
are exactly the nodes whose stack parent is `p`, in line order. -/
def childrenOf (levels : List Nat) (p : Nat) : List Nat :=
  ((buildParents levels).enum.filter (fun e => e.2 == some p)).map (fun e => e.1)

/-- The declarative reading of the stack rule: a node's parent is the
nearest preceding line of strictly smaller depth. -/
def nearestSmallerIndex (levels : List Nat) (i : Nat) : Option Nat :=
  ((List.range i).filter (fun j => levels.getD j 0 < levels.getD i 0)).getLast?

end FindYourRoot

namespace FindYourRoot

/-! ## Theorems for the role lattice and likes -/

/-- C9: in the five-role lattice, `CanApprove` implies the
`RequireContributor` gate (`CanSuggest`), `CanManageUsers` implies
`CanApprove`, and `CanApprove` implies `CanEditDirectly`. -/
theorem role_lattice_implications (r : UserRole) :
    (canApprove r = true → canSuggest r = true) ∧
    (canManageUsers r = true → canApprove r = true) ∧
    (canApprove r = true → canEditDirectly r = true) := by
  cases r <;> simp [canApprove, canSuggest, canManageUsers, canEditDirectly]

/-- Witness for C9 at the concrete role co-admin. -/
theorem role_lattice_implications_witness :
    canSuggest UserRole.coAdmin = true ∧ canEditDirectly UserRole.coAdmin = true :=
  ⟨(role_lattice_implications UserRole.coAdmin).1 (by decide),
   (role_lattice_implications UserRole.coAdmin).2.2 (by decide)⟩

/-- C7: a like by a user already in `liked_by` answers 409 and leaves the
document unchanged; otherwise the handler answers 200, appends the user to
`liked_by`, increments `likes_count` by one, and hence keeps
`likes_count = |liked_by|` whenever that held before. -/
theorem like_conflict_and_consistency (p : Person) (uid : String) :
    (uid ∈ p.likedBy → likePerson p uid = (409, p)) ∧
    (uid ∉ p.likedBy →
      (likePerson p uid).1 = 200 ∧
      (likePerson p uid).2.likedBy = p.likedBy ++ [uid] ∧
      (likePerson p uid).2.likesCount = p.likesCount + 1 ∧
      (p.likesCount = p.likedBy.length →
        (likePerson p uid).2.likesCount = ((likePerson p uid).2.likedBy).length)) := by
  constructor
  · intro h
    simp [likePerson, likeTx, h]
  · intro h
    have hres : likePerson p uid =
        (200, { p with likedBy := p.likedBy ++ [uid],
                       likesCount := p.likesCount + 1 }) := by
      simp [likePerson, likeTx, arrayUnion, h]
    refine ⟨by rw [hres], by rw [hres], by rw [hres], ?_⟩
    intro hc
    rw [hres]
    simp [hc]

/-- Witness for C7: the second like of the same user answers 409 with the
document unchanged, and a first like moves `likes_count` from 0 to 1. -/
theorem like_conflict_and_consistency_witness :
    (likePerson { id := "p1", likedBy := ["u1"], likesCount := 1 } "u1"
        = (409, { id := "p1", likedBy := ["u1"], likesCount := 1 })) ∧
    (likePerson { id := "p1" } "u1").2.likesCount = 1 :=
  ⟨(like_conflict_and_consistency { id := "p1", likedBy := ["u1"], likesCount := 1 } "u1").1
      (by decide),
   by
     have h := (like_conflict_and_consistency { id := "p1" } "u1").2 (by decide)
     rw [h.2.2.1]
     norm_num⟩

/-- C10: a successful unlike writes `max (likes_count - 1) 0`: the stored
count minus one, clamped below at zero, so the written count is never
negative — also when the stored count was already zero or negative while
`liked_by` still contained the user. -/
theorem unlike_clamps_at_zero (p : Person) (uid : String) (h : uid ∈ p.likedBy) :
    (unlikePerson p uid).1 = 200 ∧
    (unlikePerson p uid).2.likesCount = max (p.likesCount - 1) 0 ∧
    0 ≤ (unlikePerson p uid).2.likesCount ∧
    (unlikePerson p uid).2.likedBy = p.likedBy.filter (fun y => y ≠ uid) := by
  have hres : unlikePerson p uid =
      (200, { p with likedBy := p.likedBy.filter (fun y => y ≠ uid),
                     likesCount := if p.likesCount - 1 < 0 then 0
                                   else p.likesCount - 1 }) := by
    simp [unlikePerson, unlikeTx, arrayRemove, h]
  refine ⟨by rw [hres], ?_, ?_, by rw [hres]⟩
  · rw [hres]
    dsimp only
    split <;> omega
  · rw [hres]
    dsimp only
    split <;> omega

/-- Witness for C10: unliking with a stored count of 0 while `liked_by`
still holds the user writes 0, not −1. -/
theorem unlike_clamps_at_zero_witness :
    (unlikePerson { id := "p1", likedBy := ["u1"], likesCount := 0 } "u1").2.likesCount
      = max ((0 : Int) - 1) 0 :=
  (unlike_clamps_at_zero { id := "p1", likedBy := ["u1"], likesCount := 0 } "u1"
    (by decide)).2.1

/-! ## Suggestion review: the pending precondition (C6) -/

/-- None of the three suggestion executors writes the `suggestions`
collection. -/
theorem executeSuggestion_suggestions_eq (db : DB) (s : Suggestion)
    (freshId : String) (db1 : DB)
    (h : executeSuggestion db s freshId = .ok db1) :
    db1.suggestions = db.suggestions := by
  unfold executeSuggestion executeAdd executeEdit executeDelete at h
  split at h
  · split at h
    · exact absurd h (by simp)
    · split at h
      · split at h
        · exact absurd h (by simp)
        · simp only [Except.ok.injEq] at h
          subst h; rfl
      · simp only [Except.ok.injEq] at h
        subst h; rfl
  · split at h
    · split at h
      · exact absurd h (by simp)
      · split at h
        · simp only [Except.ok.injEq] at h
          subst h; rfl
        · exact absurd h (by simp)
    · split at h
      · split at h
        · exact absurd h (by simp)
        · simp only [Except.ok.injEq] at h
          subst h; rfl
      · exact absurd h (by simp)

/-- `setSuggestionStatus` keeps every suggestion id in place, so looking
up an id after the write returns the rewritten record. -/
theorem find?_statusUpdate (l : List Suggestion)
    (sid newStatus rid remail notes : String) :
    (l.map fun s => if s.id = sid then
        { s with status := newStatus, reviewedBy := rid,
                 reviewerEmail := remail, reviewNotes := notes }
      else s).find? (fun t => t.id == sid)
      = (l.find? (fun t => t.id == sid)).map
          (fun s => if s.id = sid then
              { s with status := newStatus, reviewedBy := rid,
                       reviewerEmail := remail, reviewNotes := notes }
            else s) := by
  induction l with
  | nil => rfl
  | cons a l ih =>
    by_cases h : a.id = sid
    · simp [List.find?_cons, h]
    · simp [List.find?_cons, h, ih]

/-- Unfolding equation for `reviewSuggestion` once the lookup result is
known. -/
theorem reviewSuggestion_found (db : DB) (sid : String) (approved : Bool)
    (notes rid remail fid : String) (s : Suggestion)
    (hfind : db.suggestions.find? (fun t => t.id == sid) = some s) :
    reviewSuggestion db sid approved notes rid remail fid =
      if s.status ≠ "pending" then (400, db)
      else if approved then
        match executeSuggestion db s fid with
        | .error _ => (500, db)
        | .ok db1 => (200, setSuggestionStatus db1 sid "approved" rid remail notes)
      else (200, setSuggestionStatus db sid "rejected" rid remail notes) := by
  unfold reviewSuggestion
  rw [hfind]
  cases approved
  · rfl
  · rfl

/-- C6: a review of a suggestion whose status is not pending fails with
the already-reviewed precondition error (HTTP 400) and leaves the entire
state unchanged; in particular, after a successful approving review of a
suggestion, any second review of the same suggestion fails that way and
changes nothing. -/
theorem review_requires_pending :
    (∀ (db : DB) (sid : String) (approved : Bool)
        (notes rid remail fid : String) (s : Suggestion),
      db.suggestions.find? (fun t => t.id == sid) = some s →
      s.status ≠ "pending" →
      reviewSuggestion db sid approved notes rid remail fid = (400, db)) ∧
    (∀ (db db' : DB) (sid notes rid remail fid : String),
      reviewSuggestion db sid true notes rid remail fid = (200, db') →
      ∀ (approved2 : Bool) (notes2 rid2 remail2 fid2 : String),
        reviewSuggestion db' sid approved2 notes2 rid2 remail2 fid2 = (400, db')) := by
  constructor
  · intro db sid approved notes rid remail fid s hfind hstat
    rw [reviewSuggestion_found db sid approved notes rid remail fid s hfind]
    simp [hstat]
  · intro db db' sid notes rid remail fid h1 approved2 notes2 rid2 remail2 fid2
    rcases hfind : db.suggestions.find? (fun t => t.id == sid) with _ | s
    · unfold reviewSuggestion at h1
      rw [hfind] at h1; simp at h1
    · rw [reviewSuggestion_found db sid true notes rid remail fid s hfind] at h1
      by_cases hstat : s.status = "pending"
      · rw [if_neg (by simp [hstat]), if_pos rfl] at h1
        rcases hexec : executeSuggestion db s fid with e | db1
        · rw [hexec] at h1; simp at h1
        · rw [hexec] at h1
          simp only [Prod.mk.injEq, true_and] at h1
          have hdb' : db' = setSuggestionStatus db1 sid "approved" rid remail notes :=
            h1.symm
          have hid : s.id = sid := by
            have := List.find?_some hfind
            simpa using this
          have hfind' : db'.suggestions.find? (fun t => t.id == sid)
              = some { s with status := "approved", reviewedBy := rid,
                              reviewerEmail := remail, reviewNotes := notes } := by
            rw [hdb']
            unfold setSuggestionStatus
            rw [find?_statusUpdate,
              executeSuggestion_suggestions_eq db s fid db1 hexec, hfind]
            simp [hid]
          rw [reviewSuggestion_found db' sid approved2 notes2 rid2 remail2 fid2 _ hfind']
          simp
      · rw [if_pos (by simpa using hstat)] at h1
        simp at h1

/-- The state used by the C6 witness: one person and one pending delete
suggestion targeting it. -/
def reviewWitnessDB : DB :=
  { people := [{ id := "P" }],
    suggestions := [{ id := "s1", type := "delete", targetPersonId := "P" }] }

/-- Witness for C6: reviewing an already-approved suggestion answers 400
unchanged, and after one successful approving review the second review of
the same id answers 400 and leaves the state as the first review left it. -/
theorem review_requires_pending_witness :
    (reviewSuggestion
        { suggestions := [{ id := "s0", type := "edit", status := "approved" }] }
        "s0" false "n2" "r2" "r2@x" "f2"
      = (400, { suggestions := [{ id := "s0", type := "edit", status := "approved" }] })) ∧
    reviewSuggestion (reviewSuggestion reviewWitnessDB "s1" true "n" "r" "r@x" "f").2
        "s1" true "n" "r" "r@x" "f"
      = (400, (reviewSuggestion reviewWitnessDB "s1" true "n" "r" "r@x" "f").2) := by
  constructor
  · exact review_requires_pending.1
      { suggestions := [{ id := "s0", type := "edit", status := "approved" }] }
      "s0" false "n2" "r2" "r2@x" "f2"
      { id := "s0", type := "edit", status := "approved" }
      (by decide) (by decide)
  · exact review_requires_pending.2 reviewWitnessDB
      (reviewSuggestion reviewWitnessDB "s1" true "n" "r" "r@x" "f").2
      "s1" "n" "r" "r@x" "f" (by decide) true "n" "r" "r@x" "f"

/-! ## Deletion postconditions (C1) -/

/-- Only the child-edge scrub among the cascade steps touches `people`. -/
theorem onPersonDeleted_people (pid : String) (db : DB) :
    (onPersonDeleted pid db).people
      = db.people.map (fun p =>
          if pid ∈ p.children then { p with children := arrayRemove p.children pid }
          else p) := rfl

/-- Only step 4 of the cascade touches `suggestions`. -/
theorem onPersonDeleted_suggestions (pid : String) (db : DB) :
    (onPersonDeleted pid db).suggestions
      = db.suggestions.map (fun s =>
          if s.targetPersonId = pid ∧ s.status = "pending" then
            { s with status := "rejected",
                     reviewNotes := "Auto-rejected: Target person was deleted" }
          else s) := rfl

/-- Only step 5 of the cascade touches `claims`. -/
theorem onPersonDeleted_claims (pid : String) (db : DB) :
    (onPersonDeleted pid db).claims
      = db.claims.map (fun c =>
          if c.personId = pid ∧ c.status = "pending" then
            { c with status := "rejected",
                     reviewNotes := "Auto-rejected: Person was deleted from tree" }
          else c) := rfl

/-- Only step 1 of the cascade touches `users`. -/
theorem onPersonDeleted_users (pid : String) (db : DB) :
    (onPersonDeleted pid db).users
      = db.users.map (fun u =>
          if u.personId = pid then { u with personId := "", treeName := "" }
          else u) := rfl

/-- Every person surviving the child-edge scrub lost `pid` from its
`children`. -/
theorem mem_childScrub_not_mem (people : List Person) (pid : String) (p : Person)
    (hp : p ∈ people.map (fun q =>
        if pid ∈ q.children then { q with children := arrayRemove q.children pid }
        else q)) :
    pid ∉ p.children := by
  rcases List.mem_map.mp hp with ⟨q, _, hq⟩
  by_cases hmem : pid ∈ q.children
  · rw [if_pos hmem] at hq
    subst hq
    intro hcontra
    have := (List.mem_filter.mp hcontra).2
    simp at this
  · rw [if_neg hmem] at hq
    subst hq
    exact hmem

/-- Unfolding equation for `deletePerson` once the lookup result is
known. -/
theorem deletePerson_found (db : DB) (pid actorId actorRole : String)
    (person : Person)
    (hfind : db.people.find? (fun p => p.id == pid) = some person) :
    deletePerson db pid actorId actorRole =
      if person.createdBy ≠ actorId ∧ actorRole ≠ "admin" then (403, db)
      else (200, { onPersonDeleted pid db with
                   people := (onPersonDeleted pid db).people.filter
                     (fun p => p.id ≠ pid) }) := by
  unfold deletePerson
  rw [hfind]

/-- C1 (amended): after a successful `DeletePerson` through the tree
endpoint, no surviving person's `children` contains the deleted id, no
person document with that id remains (hence no user has a derived link to
it), and every suggestion or identity claim targeting it is no longer
pending.  After a successful approving review of a *delete suggestion*,
only the first two guarantees hold — the suggestion path deletes the
person and its child edges without running the referential-integrity
cascade. -/
theorem delete_cascade_postconditions :
    (∀ (db : DB) (pid actorId actorRole : String) (db' : DB),
      deletePerson db pid actorId actorRole = (200, db') →
      (∀ p ∈ db'.people, pid ∉ p.children ∧ p.id ≠ pid) ∧
      (∀ uid, ¬ derivedLink db' uid pid) ∧
      (∀ s ∈ db'.suggestions, s.targetPersonId = pid → s.status ≠ "pending") ∧
      (∀ c ∈ db'.claims, c.personId = pid → c.status ≠ "pending")) ∧
    (∀ (db : DB) (sid notes rid remail fid : String) (db' : DB) (s : Suggestion),
      db.suggestions.find? (fun t => t.id == sid) = some s →
      s.type = "delete" →
      reviewSuggestion db sid true notes rid remail fid = (200, db') →
      ∀ p ∈ db'.people, s.targetPersonId ∉ p.children ∧ p.id ≠ s.targetPersonId) := by
  constructor
  · intro db pid actorId actorRole db' h
    rcases hfind : db.people.find? (fun p => p.id == pid) with _ | person
    · unfold deletePerson at h
      rw [hfind] at h; simp at h
    · rw [deletePerson_found db pid actorId actorRole person hfind] at h
      by_cases hauth : person.createdBy ≠ actorId ∧ actorRole ≠ "admin"
      · rw [if_pos hauth] at h; simp at h
      · rw [if_neg hauth] at h
        simp only [Prod.mk.injEq, true_and] at h
        subst h
        refine ⟨?_, ?_, ?_, ?_⟩
        · intro p hp
          have hmem := List.mem_filter.mp hp
          refine ⟨?_, by simpa using hmem.2⟩
          have hin : p ∈ (onPersonDeleted pid db).people := hmem.1
          rw [onPersonDeleted_people] at hin
          exact mem_childScrub_not_mem db.people pid p hin
        · intro uid hlink
          rcases hlink with ⟨p, hp, hpid, _, _⟩
          have hmem := List.mem_filter.mp hp
          have : p.id ≠ pid := by simpa using hmem.2
          exact this hpid
        · intro s hs htarget
          have hin : s ∈ (onPersonDeleted pid db).suggestions := hs
          rw [onPersonDeleted_suggestions] at hin
          rcases List.mem_map.mp hin with ⟨s0, _, hs0⟩
          by_cases hcond : s0.targetPersonId = pid ∧ s0.status = "pending"
          · rw [if_pos hcond] at hs0
            subst hs0
            simp
          · rw [if_neg hcond] at hs0
            subst hs0
            intro hpending
            exact hcond ⟨htarget, hpending⟩
        · intro c hc htarget
          have hin : c ∈ (onPersonDeleted pid db).claims := hc
          rw [onPersonDeleted_claims] at hin
          rcases List.mem_map.mp hin with ⟨c0, _, hc0⟩
          by_cases hcond : c0.personId = pid ∧ c0.status = "pending"
          · rw [if_pos hcond] at hc0
            subst hc0
            simp
          · rw [if_neg hcond] at hc0
            subst hc0
            intro hpending
            exact hcond ⟨htarget, hpending⟩
  · intro db sid notes rid remail fid db' s hfind htype h
    rw [reviewSuggestion_found db sid true notes rid remail fid s hfind] at h
    by_cases hstat : s.status = "pending"
    · rw [if_neg (by simp [hstat]), if_pos rfl] at h
      rcases hexec : executeSuggestion db s fid with e | db1
      · rw [hexec] at h; simp at h
      · rw [hexec] at h
        simp only [Prod.mk.injEq, true_and] at h
        subst h
        have hdel : executeDelete db s = .ok db1 := by
          unfold executeSuggestion at hexec
          rw [htype] at hexec
          simpa using hexec
        unfold executeDelete at hdel
        rcases hfindP : db.people.find? (fun p => p.id == s.targetPersonId) with _ | tp
        · rw [hfindP] at hdel; simp at hdel
        · rw [hfindP] at hdel
          simp only [Except.ok.injEq] at hdel
          intro p hp
          have hpeople : (setSuggestionStatus db1 sid "approved" rid remail notes).people
              = db1.people := rfl
          rw [hpeople, ← hdel] at hp
          have hmem := List.mem_filter.mp hp
          refine ⟨?_, by simpa using hmem.2⟩
          exact mem_childScrub_not_mem db.people s.targetPersonId p hmem.1
    · rw [if_pos (by simpa using hstat)] at h
      simp at h

/-- Witness for C1 (amended): concrete runs of both delete paths. -/
theorem delete_cascade_postconditions_witness :
    (∀ p ∈ (deletePerson
        { people := [{ id := "P" }, { id := "Q", children := ["P"] }],
          claims := [{ id := "c1", personId := "P" }] }
        "P" "a" "admin").2.people, "P" ∉ p.children ∧ p.id ≠ "P") ∧
    (∀ p ∈ (reviewSuggestion reviewWitnessDB "s1" true "n" "r" "r@x" "f").2.people,
      "P" ∉ p.children ∧ p.id ≠ "P") := by
  constructor
  · exact (delete_cascade_postconditions.1
      { people := [{ id := "P" }, { id := "Q", children := ["P"] }],
        claims := [{ id := "c1", personId := "P" }] }
      "P" "a" "admin" _ (by decide)).1
  · exact delete_cascade_postconditions.2 reviewWitnessDB "s1" "n" "r" "r@x" "f"
      _ { id := "s1", type := "delete", targetPersonId := "P" }
      (by decide) (by decide) (by decide)

/-- C1 (counterexample to the claim as stated): approving a delete
suggestion for P succeeds and removes the person, yet a pending identity
claim targeting P survives — the suggestion path never runs the cascade. -/
theorem delete_via_suggestion_leaves_pending_claim :
    (reviewSuggestion
        { people := [{ id := "P" }],
          suggestions := [{ id := "s1", type := "delete", targetPersonId := "P" }],
          claims := [{ id := "c1", personId := "P", status := "pending" }] }
        "s1" true "n" "r" "r@x" "f").1 = 200 ∧
    (∀ p ∈ (reviewSuggestion
        { people := [{ id := "P" }],
          suggestions := [{ id := "s1", type := "delete", targetPersonId := "P" }],
          claims := [{ id := "c1", personId := "P", status := "pending" }] }
        "s1" true "n" "r" "r@x" "f").2.people, p.id ≠ "P") ∧
    ∃ c ∈ (reviewSuggestion
        { people := [{ id := "P" }],
          suggestions := [{ id := "s1", type := "delete", targetPersonId := "P" }],
          claims := [{ id := "c1", personId := "P", status := "pending" }] }
        "s1" true "n" "r" "r@x" "f").2.claims,
      c.personId = "P" ∧ c.status = "pending" := by
  refine ⟨by decide, by decide, ?_⟩
  exact ⟨{ id := "c1", personId := "P", status := "pending" }, by decide, by decide⟩

/-! ## Ownership of the User–Person link (C2) -/

/-- State for the C2 counterexample: `u1` holds the derived link to `P`
(`P.linked_user_id = "u1"`), while `u2` merely has the legacy stored
`person_id = "P"`. -/
def dbStoredLink : DB :=
  { people := [{ id := "P", linkedUserId := "u1" }],
    users := [{ id := "u1" }, { id := "u2", personId := "P", treeName := "Batur" }] }

/-- C2 (counterexample to the claim as stated): the cascade's
`clearUserPersonLinks` selects users by the **stored** `person_id`
attribute of the User record, not by the derived link: it rewrites `u2`
(which has no derived link to P) and leaves `u1` (which has the derived
link) untouched — so User records do store, and the cascade does read and
write, a `person_id` attribute. -/
theorem cascade_uses_stored_person_id :
    derivedLink dbStoredLink "u1" "P" ∧
    ¬ derivedLink dbStoredLink "u2" "P" ∧
    (clearUserPersonLinks "P" dbStoredLink).users
      = [{ id := "u1" }, { id := "u2", personId := "", treeName := "" }] := by
  refine ⟨?_, by decide, by decide⟩
  exact ⟨{ id := "P", linkedUserId := "u1" }, by decide, by decide⟩

/-- Unfolding equation for `reviewIdentityClaim` once the lookup result
is known. -/
theorem reviewIdentityClaim_found (db : DB) (cid : String) (approved : Bool)
    (notes aid : String) (claim : IdentityClaim)
    (hfind : db.claims.find? (fun c => c.id == cid) = some claim) :
    reviewIdentityClaim db cid approved notes aid =
      if claim.status ≠ "pending" then (400, db)
      else if approved then
        if (db.users.find? (fun u => u.id == claim.userId)).isSome ∧
            (db.people.find? (fun p => p.id == claim.personId)).isSome then
          (200, { db with
            claims := db.claims.map fun c =>
              if c.id = cid then
                { c with status := "approved", reviewedBy := aid,
                         reviewNotes := notes }
              else c,
            users := db.users.map fun u =>
              if u.id = claim.userId then { u with isVerified := true } else u,
            people := db.people.map fun p =>
              if p.id = claim.personId then { p with linkedUserId := claim.userId }
              else p })
        else (500, db)
      else
        (200, { db with claims := db.claims.map fun c =>
            if c.id = cid then
              { c with status := "rejected", reviewedBy := aid,
                       reviewNotes := notes }
            else c }) := by
  unfold reviewIdentityClaim
  rw [hfind]
  cases approved
  · rfl
  · rfl

/-- C2 (amended): claim review, unlink and direct link never write any
User's `person_id` (review writes only `is_verified`; unlink and link
write only the Person, which owns `linked_user_id`); the cascade is the
one operation that touches `User.person_id`, and it clears exactly the
stored `person_id` values equal to the deleted person. -/
theorem person_owns_user_link :
    (∀ (db : DB) (cid : String) (approved : Bool) (notes aid : String),
      ((reviewIdentityClaim db cid approved notes aid).2).users.map
          (fun u => u.personId)
        = db.users.map (fun u => u.personId)) ∧
    (∀ (db : DB) (uid : String), (unlinkIdentity db uid).2.users = db.users) ∧
    (∀ (db : DB) (r a ru rp ig : String),
      (linkUserToPerson db r a ru rp ig).2.users = db.users) ∧
    (∀ (pid : String) (db : DB),
      (clearUserPersonLinks pid db).users.map (fun u => u.personId)
        = db.users.map (fun u => if u.personId = pid then "" else u.personId)) := by
  refine ⟨?_, ?_, ?_, ?_⟩
  · intro db cid approved notes aid
    rcases hfind : db.claims.find? (fun c => c.id == cid) with _ | claim
    · unfold reviewIdentityClaim
      rw [hfind]
    · rw [reviewIdentityClaim_found db cid approved notes aid claim hfind]
      by_cases hstat : claim.status = "pending"
      · rw [if_neg (by simp [hstat])]
        cases approved
        · rw [if_neg (by simp)]
        · rw [if_pos rfl]
          by_cases hok : (db.users.find? (fun u => u.id == claim.userId)).isSome ∧
              (db.people.find? (fun p => p.id == claim.personId)).isSome
          · rw [if_pos hok]
            show (db.users.map fun u =>
                if u.id = claim.userId then { u with isVerified := true }
                else u).map (fun u => u.personId) = _
            rw [List.map_map]
            congr 1
            funext u
            by_cases hu : u.id = claim.userId <;> simp [hu]
          · rw [if_neg hok]
      · rw [if_pos (by simpa using hstat)]
  · intro db uid
    unfold unlinkIdentity
    rcases hfind : db.people.find? (fun p => p.linkedUserId == uid) with _ | pd <;>
      rw [hfind]
  · intro db r a ru rp ig
    unfold linkUserToPerson
    by_cases h1 : r = "admin" ∨ (r = "co-admin" ∧ a = ru)
    · rw [if_neg (not_not_intro h1)]
      by_cases h2 : (db.users.find? (fun u => u.id == ru)).isNone
      · rw [if_pos h2]
      · rw [if_neg h2]
        by_cases h3 : (db.people.find? (fun p => p.linkedUserId == ru)).isSome
        · rw [if_pos h3]
        · rw [if_neg h3]
          rcases hfind : db.people.find? (fun p => p.id == rp) with _ | person
          · rw [hfind]
          · rw [hfind]
            dsimp only
            split
            · rfl
            · rfl
    · rw [if_pos h1]
  · intro pid db
    unfold clearUserPersonLinks
    rw [List.map_map]
    congr 1
    funext u
    by_cases hu : u.personId = pid <;> simp [hu]

/-! ## What the cascade writes on users (C3) -/

/-- State for the C3 counterexample: `P.linked_user_id = "u1"` and `u1`
is verified; `u1.person_id` is empty (the current identity flow never
stores one). -/
def dbVerifiedLink : DB :=
  { people := [{ id := "P", linkedUserId := "u1" }],
    users := [{ id := "u1", isVerified := true }] }

/-- C3 (counterexample to the claim as stated): `u1` holds the derived
link to P, yet after a successful delete of P the cascade has not cleared
`is_verified` on `u1` — the cascade selects users by the stored
`person_id` (empty here) and never touches `is_verified` at all. -/
theorem cascade_leaves_is_verified :
    derivedLink dbVerifiedLink "u1" "P" ∧
    (deletePerson dbVerifiedLink "P" "x" "admin").1 = 200 ∧
    ∃ u ∈ (deletePerson dbVerifiedLink "P" "x" "admin").2.users,
      u.id = "u1" ∧ u.isVerified = true := by
  refine ⟨?_, by decide, ?_⟩
  · exact ⟨{ id := "P", linkedUserId := "u1" }, by decide, by decide⟩
  · exact ⟨{ id := "u1", isVerified := true }, by decide, by decide⟩

/-- C3 (amended): a successful delete of P rewrites exactly the users
whose stored `person_id` equals P, clearing `person_id` and `tree_name`
on them; every user keeps its `is_verified`, `role`, `email` and `id`,
and a user whose stored `person_id` differs from P is entirely
unchanged. -/
theorem cascade_clears_stored_links_only (db : DB)
    (pid actorId actorRole : String) (db' : DB)
    (h : deletePerson db pid actorId actorRole = (200, db')) :
    db'.users = db.users.map
      (fun u => if u.personId = pid then { u with personId := "", treeName := "" }
        else u) ∧
    (∀ u ∈ db.users,
      (∃ u' ∈ db'.users, u'.id = u.id ∧ u'.isVerified = u.isVerified ∧
        u'.role = u.role ∧ u'.email = u.email) ∧
      (u.personId ≠ pid → u ∈ db'.users)) := by
  have husers : db'.users = db.users.map
      (fun u => if u.personId = pid then { u with personId := "", treeName := "" }
        else u) := by
    rcases hfind : db.people.find? (fun p => p.id == pid) with _ | person
    · unfold deletePerson at h
      rw [hfind] at h; simp at h
    · rw [deletePerson_found db pid actorId actorRole person hfind] at h
      by_cases hauth : person.createdBy ≠ actorId ∧ actorRole ≠ "admin"
      · rw [if_pos hauth] at h; simp at h
      · rw [if_neg hauth] at h
        simp only [Prod.mk.injEq, true_and] at h
        subst h
        exact onPersonDeleted_users pid db
  refine ⟨husers, ?_⟩
  intro u hu
  constructor
  · refine ⟨if u.personId = pid then { u with personId := "", treeName := "" } else u,
      ?_, ?_⟩
    · rw [husers]
      exact List.mem_map.mpr ⟨u, hu, rfl⟩
    · by_cases hup : u.personId = pid <;> simp [hup]
  · intro hne
    rw [husers]
    refine List.mem_map.mpr ⟨u, hu, ?_⟩
    rw [if_neg hne]

/-- State for the C3 amended-claim witness: one user carries the stored
`person_id`, another does not. -/
def dbCascadeWitness : DB :=
  { people := [{ id := "P2" }],
    users := [{ id := "v1", personId := "P2", treeName := "T", isVerified := true },
              { id := "v2", isVerified := true }] }

/-- Witness for C3 (amended): in the concrete delete, `v1` has
`person_id`/`tree_name` cleared and keeps `is_verified`; `v2` is
untouched. -/
theorem cascade_clears_stored_links_only_witness :
    (deletePerson dbCascadeWitness "P2" "x" "admin").2.users
      = [{ id := "v1", personId := "", treeName := "", isVerified := true },
         { id := "v2", isVerified := true }] := by
  have h := (cascade_clears_stored_links_only dbCascadeWitness "P2" "x" "admin"
    (deletePerson dbCascadeWitness "P2" "x" "admin").2 (by decide)).1
  rw [h]
  decide

/-! ## Bulk import: the stack rule and root depths (C5) -/

/-- The parent list has one entry per node. -/
theorem buildParentsGo_length (nodes stack : List (Nat × Nat)) :
    (buildParentsGo nodes stack).length = nodes.length := by
  induction nodes generalizing stack with
  | nil => rfl
  | cons nd rest ih =>
    obtain ⟨i, l⟩ := nd
    simp [buildParentsGo, ih]

/-- `dropWhile` keeps the last element when its result is non-empty. -/
theorem getLast?_dropWhile {α : Type} (p : α → Bool) (l : List α)
    (h : l.dropWhile p ≠ []) : (l.dropWhile p).getLast? = l.getLast? := by
  induction l with
  | nil => simp at h
  | cons a l ih =>
    by_cases hp : p a
    · rw [List.dropWhile_cons_of_pos hp] at h ⊢
      rcases hl : l with _ | ⟨b, l'⟩
      · rw [hl] at h; simp at h
      · rw [← hl, ih (by rw [hl] at h ⊢; exact h)]
        rw [hl, List.getLast?_cons_cons]
    · rw [List.dropWhile_cons_of_neg hp]

/-- The head of a non-empty `dropWhile` result fails the predicate. -/
theorem head_dropWhile_not {α : Type} (p : α → Bool) (l : List α)
    (a : α) (t : List α) (h : l.dropWhile p = a :: t) : p a = false := by
  induction l with
  | nil => simp at h
  | cons x l ih =>
    by_cases hp : p x
    · rw [List.dropWhile_cons_of_pos hp] at h
      exact ih h
    · rw [List.dropWhile_cons_of_neg hp] at h
      cases h
      simpa using hp

/-- Along the loop, the bottom of the stack keeps depth 0, so a node that
empties the stack (a root) must itself have depth 0. -/
theorem buildParentsGo_root_levels (nodes : List (Nat × Nat)) :
    ∀ (stack : List (Nat × Nat)), stack ≠ [] →
      (∀ b, stack.getLast? = some b → b.2 = 0) →
      ∀ (k : Nat) (e : Nat × Nat), (buildParentsGo nodes stack)[k]? = some none →
        nodes[k]? = some e → e.2 = 0 := by
  induction nodes with
  | nil =>
    intro stack _ _ k e h
    simp [buildParentsGo] at h
  | cons nd rest ih =>
    obtain ⟨i, l⟩ := nd
    intro stack hne hbot k e hpar hnode
    have hbot' : stack.dropWhile (fun top => l ≤ top.2) = [] → l = 0 := by
      intro hdw
      have hall := List.dropWhile_eq_nil_iff.mp hdw
      rcases hgl : stack.getLast? with _ | b
      · rcases stack with _ | ⟨x, s⟩
        · exact absurd rfl hne
        · simp [List.getLast?] at hgl
      · have hmem : b ∈ stack := by
          obtain ⟨hb, rfl⟩ :=
            List.mem_getLast?_eq_getLast (Option.mem_def.mpr hgl)
          exact List.getLast_mem hb
        have hle : l ≤ b.2 := by simpa using hall b hmem
        have : b.2 = 0 := hbot b hgl
        omega
    rcases k with _ | k
    · have hstep : buildParentsGo ((i, l) :: rest) stack
          = ((stack.dropWhile (fun top => l ≤ top.2)).head?.map
              (fun top => top.1))
            :: buildParentsGo rest
              ((i, l) :: stack.dropWhile (fun top => l ≤ top.2)) := rfl
      rw [hstep, List.getElem?_cons_zero] at hpar
      have hnone : (stack.dropWhile (fun top => l ≤ top.2)).head?.map
          (fun top => top.1) = none := by simpa using hpar
      have hdw : stack.dropWhile (fun top => l ≤ top.2) = [] := by
        rcases hd : stack.dropWhile (fun top => l ≤ top.2) with _ | ⟨x, t⟩
        · exact hd
        · rw [hd] at hnone; simp at hnone
      have hl0 : l = 0 := hbot' hdw
      obtain rfl : (i, l) = e := by simpa using hnode
      exact hl0
    · have hpar' : (buildParentsGo rest
          ((i, l) :: stack.dropWhile (fun top => l ≤ top.2)))[k]? = some none := by
        have hstep : buildParentsGo ((i, l) :: rest) stack
            = ((stack.dropWhile (fun top => l ≤ top.2)).head?.map
                (fun top => top.1))
              :: buildParentsGo rest
                ((i, l) :: stack.dropWhile (fun top => l ≤ top.2)) := rfl
        rw [hstep] at hpar
        simpa using hpar
      have hnode' : rest[k]? = some e := by simpa using hnode
      apply ih ((i, l) :: stack.dropWhile (fun top => l ≤ top.2)) (by simp)
        ?_ k e hpar' hnode'
      intro b hb
      rcases hdw : stack.dropWhile (fun top => l ≤ top.2) with _ | ⟨x, t⟩
      · rw [hdw] at hb
        obtain rfl : (i, l) = b := by simpa using hb
        exact hbot' hdw
      · rw [hdw] at hb
        rw [List.getLast?_cons_cons] at hb
        apply hbot
        rw [← getLast?_dropWhile (fun top => l ≤ top.2) stack (by rw [hdw]; simp),
          hdw]
        exact hb

/-- C5 (root half, on arbitrary level lists): when the first node has
depth 0, every parentless node has depth 0. -/
theorem roots_have_depth_zero (levels : List Nat) (h0 : levels[0]? = some 0) :
    ∀ (k : Nat), (buildParents levels)[k]? = some none → levels[k]? = some 0 := by
  rcases levels with _ | ⟨l0, rest⟩
  · simp at h0
  · have hl0 : l0 = 0 := by simpa using h0
    subst hl0
    intro k hk
    unfold buildParents at hk
    rcases k with _ | k
    · simp
    · have hk' : (buildParentsGo (List.enumFrom 1 rest) [(0, 0)])[k]? = some none := by
        have hstep : buildParentsGo (List.enum (0 :: rest)) []
            = none :: buildParentsGo (List.enumFrom 1 rest) [(0, 0)] := rfl
        rw [hstep] at hk
        simpa using hk
      rcases hnode : (List.enumFrom 1 rest)[k]? with _ | e
      · exfalso
        have hlen : k < (buildParentsGo (List.enumFrom 1 rest) [(0, 0)]).length := by
          rcases Nat.lt_or_ge k
              (buildParentsGo (List.enumFrom 1 rest) [(0, 0)]).length with h | h
          · exact h
          · rw [List.getElem?_eq_none_iff.mpr h] at hk'
            simp at hk'
        rw [buildParentsGo_length] at hlen
        rw [List.getElem?_eq_none_iff] at hnode
        omega
      · have he2 : e.2 = 0 :=
          buildParentsGo_root_levels (List.enumFrom 1 rest) [(0, 0)] (by simp)
            (by
              intro b hb
              have hb' : b = ((0 : Nat), (0 : Nat)) := by
                have := Option.some.inj (by simpa using hb)
                simpa using this.symm
              rw [hb']) k e hk' hnode
        have : rest[k]? = some e.2 := by
          rw [List.getElem?_enumFrom] at hnode
          rcases hr : rest[k]? with _ | a
          · rw [hr] at hnode; simp at hnode
          · rw [hr] at hnode
            obtain rfl : ((1 + k : Nat), a) = e := by simpa using hnode
            rfl
        rw [List.getElem?_cons_succ, this, he2]

/-- Invariant of the parent-derivation stack after the first `n` nodes of
the level list `L` have been processed: the stack holds `(index, level)`
pairs of already-seen nodes, with indices and levels strictly decreasing
from top (head) to bottom; a seen node absent from the stack was popped by
some later node of level ≤ its own; and a stack entry's level is strictly
below every node seen after it. -/
structure StackInv (L : List Nat) (n : Nat) (stack : List (Nat × Nat)) : Prop where
  bounded : ∀ e ∈ stack, e.1 < n ∧ e.2 = L.getD e.1 0
  idxSorted : stack.Pairwise (fun a b => b.1 < a.1)
  lvlSorted : stack.Pairwise (fun a b => b.2 < a.2)
  complete : ∀ j, j < n → (∀ e ∈ stack, e.1 ≠ j) →
    ∃ k, j < k ∧ k < n ∧ L.getD k 0 ≤ L.getD j 0
  visible : ∀ e ∈ stack, ∀ k, e.1 < k → k < n → e.2 < L.getD k 0

/-- If popping empties the stack, no earlier node has level below the
current one. -/
theorem popAll_no_smaller (L : List Nat) (n l : Nat) (stack : List (Nat × Nat))
    (inv : StackInv L n stack) (hpop : ∀ x ∈ stack, l ≤ x.2) :
    ∀ j, j < n → l ≤ L.getD j 0 := by
  have main : ∀ (m : Nat) (j : Nat), j < n → n - j ≤ m → l ≤ L.getD j 0 := by
    intro m
    induction m with
    | zero => intro j hj hm; omega
    | succ m ih =>
      intro j hj hm
      by_cases hjs : ∃ e ∈ stack, e.1 = j
      · obtain ⟨e, he, heq⟩ := hjs
        have h1 := hpop e he
        have h2 := (inv.bounded e he).2
        rw [h2, heq] at h1
        exact h1
      · push_neg at hjs
        obtain ⟨k, hjk, hkn, hk⟩ := inv.complete j hj hjs
        have := ih k hkn (by omega)
        omega
  intro j hj
  exact main (n - j) j hj le_rfl

/-- If popping leaves `top` on the stack, no node strictly between
`top` and the current node has level below the current one. -/
theorem popSome_no_smaller (L : List Nat) (n l : Nat) (stack : List (Nat × Nat))
    (inv : StackInv L n stack) (top : Nat × Nat) (t' : List (Nat × Nat))
    (hdw : stack.dropWhile (fun t => l ≤ t.2) = top :: t') :
    ∀ j, top.1 < j → j < n → l ≤ L.getD j 0 := by
  have main : ∀ (m : Nat) (j : Nat), top.1 < j → j < n → n - j ≤ m →
      l ≤ L.getD j 0 := by
    intro m
    induction m with
    | zero => intro j _ hj hm; omega
    | succ m ih =>
      intro j hj1 hjn hm
      by_cases hjs : ∃ e ∈ stack, e.1 = j
      · obtain ⟨e, he, heq⟩ := hjs
        have hsplit : e ∈ stack.takeWhile (fun t => l ≤ t.2) ∨ e ∈ top :: t' := by
          have hparts : stack.takeWhile (fun t => l ≤ t.2)
              ++ stack.dropWhile (fun t => l ≤ t.2) = stack :=
            List.takeWhile_append_dropWhile _ _
          rw [← hparts] at he
          rcases List.mem_append.mp he with h | h
          · exact Or.inl h
          · rw [hdw] at h; exact Or.inr h
        rcases hsplit with h1 | h2
        · have h3 : l ≤ e.2 := by simpa using List.mem_takeWhile_imp h1
          have h4 := (inv.bounded e he).2
          rw [h4, heq] at h3
          exact h3
        · rcases List.mem_cons.mp h2 with h | h
          · rw [h] at heq; omega
          · exfalso
            have hsub : (top :: t').Sublist stack := by
              rw [← hdw]; exact List.dropWhile_sublist _
            have hpw : (top :: t').Pairwise (fun a b => b.1 < a.1) :=
              inv.idxSorted.sublist hsub
            have : e.1 < top.1 := (List.pairwise_cons.mp hpw).1 e h
            omega
      · push_neg at hjs
        obtain ⟨k, hjk, hkn, hk⟩ := inv.complete j hjn hjs
        have := ih k (by omega) hkn (by omega)
        omega
  intro j h1 h2
  exact main (n - j) j h1 h2 le_rfl

/-- A filter of `range n` with no satisfying index has no last element. -/
theorem getLast?_filter_range_none (n : Nat) (p : Nat → Bool)
    (h : ∀ j, j < n → p j = false) :
    ((List.range n).filter p).getLast? = none := by
  have hnil : (List.range n).filter p = [] := by
    rw [List.filter_eq_nil_iff]
    intro a ha
    simp [h a (List.mem_range.mp ha)]
  rw [hnil]
  rfl

/-- The last element of a filtered `range n` is its greatest satisfying
index. -/
theorem getLast?_filter_range_some (n : Nat) (p : Nat → Bool) :
    ∀ (m : Nat), m < n → p m = true → (∀ j, j < n → p j = true → j ≤ m) →
    ((List.range n).filter p).getLast? = some m := by
  induction n with
  | zero => intro m hm; omega
  | succ n ih =>
    intro m hm hpm hmax
    rw [List.range_succ, List.filter_append]
    by_cases hpn : p n = true
    · have hmn : m = n := by
        have h1 : n ≤ m := hmax n (by omega) hpn
        omega
      subst hmn
      have : List.filter p [m] = [m] := by simp [hpm]
      rw [this, List.getLast?_concat]
    · have : List.filter p [n] = [] := by
        simp [Bool.not_eq_true] at hpn
        simp [hpn]
      rw [this, List.append_nil]
      have hmn : m < n := by
        rcases Nat.lt_succ_iff_lt_or_eq.mp hm with h | h
        · exact h
        · subst h; rw [hpm] at hpn; simp at hpn
      exact ih m hmn hpm (fun j hj hpj => hmax j (by omega) hpj)

/-- With the invariant in force, the parent the stack loop assigns to node
`n` is exactly the nearest preceding node of strictly smaller level. -/
theorem parent_eq_nearestSmaller (L : List Nat) (n l : Nat)
    (stack : List (Nat × Nat)) (inv : StackInv L n stack)
    (hl : L.getD n 0 = l) :
    ((stack.dropWhile (fun t => l ≤ t.2)).head?.map (fun t => t.1))
      = nearestSmallerIndex L n := by
  rcases hdw : stack.dropWhile (fun t => l ≤ t.2) with _ | ⟨top, t'⟩
  · have hall : ∀ x ∈ stack, l ≤ x.2 := by
      intro x hx
      simpa using List.dropWhile_eq_nil_iff.mp hdw x hx
    have hnos := popAll_no_smaller L n l stack inv hall
    unfold nearestSmallerIndex
    rw [hdw, hl, getLast?_filter_range_none]
    · rfl
    · intro j hj
      have hthis := hnos j hj
      exact decide_eq_false (by omega)
  · have htopmem : top ∈ stack := by
      have hsub : (top :: t').Sublist stack := by
        rw [← hdw]; exact List.dropWhile_sublist _
      exact hsub.mem (List.mem_cons_self _ _)
    have htopn : top.1 < n := (inv.bounded top htopmem).1
    have htoplvl : top.2 = L.getD top.1 0 := (inv.bounded top htopmem).2
    have htop_lt : top.2 < l := by
      have := head_dropWhile_not (fun t => l ≤ t.2) stack top t' hdw
      simpa using this
    have hnos := popSome_no_smaller L n l stack inv top t' hdw
    unfold nearestSmallerIndex
    rw [hdw, hl]
    have hhead : ((top :: t').head?.map (fun t => t.1)) = some top.1 := rfl
    rw [hhead, getLast?_filter_range_some n _ top.1 htopn ?_ ?_]
    · rw [← htoplvl]
      simp [htop_lt]
    · intro j hj hpj
      by_contra hgt
      push_neg at hgt
      have hge := hnos j (by omega) hj
      have : L.getD j 0 < l := by simpa using hpj
      omega

/-- Processing one node preserves the stack invariant. -/
theorem stackInv_step (L : List Nat) (n l : Nat) (stack : List (Nat × Nat))
    (inv : StackInv L n stack) (hl : L.getD n 0 = l) :
    StackInv L (n + 1) ((n, l) :: stack.dropWhile (fun t => l ≤ t.2)) := by
  have hsub : (stack.dropWhile (fun t => l ≤ t.2)).Sublist stack :=
    List.dropWhile_sublist _
  have hmem' : ∀ e ∈ stack.dropWhile (fun t => l ≤ t.2), e ∈ stack :=
    fun e he => hsub.mem he
  have hlt : ∀ e ∈ stack.dropWhile (fun t => l ≤ t.2), e.2 < l := by
    rcases hdw : stack.dropWhile (fun t => l ≤ t.2) with _ | ⟨top, t'⟩
    · intro e he; rw [hdw] at he; simp at he
    · intro e he
      rw [hdw] at he
      have htop_lt : top.2 < l := by
        have := head_dropWhile_not (fun t => l ≤ t.2) stack top t' hdw
        simpa using this
      rcases List.mem_cons.mp he with h | h
      · rw [h]; exact htop_lt
      · have hsub2 : (top :: t').Sublist stack := by
          rw [← hdw]; exact List.dropWhile_sublist _
        have hpw : (top :: t').Pairwise (fun a b => b.2 < a.2) :=
          inv.lvlSorted.sublist hsub2
        have := (List.pairwise_cons.mp hpw).1 e h
        omega
  refine ⟨?_, ?_, ?_, ?_, ?_⟩
  · intro e he
    rcases List.mem_cons.mp he with h | h
    · rw [h]; exact ⟨by omega, hl.symm⟩
    · have := inv.bounded e (hmem' e h)
      exact ⟨by omega, this.2⟩
  · exact List.pairwise_cons.mpr
      ⟨fun e he => (inv.bounded e (hmem' e he)).1, inv.idxSorted.sublist hsub⟩
  · exact List.pairwise_cons.mpr ⟨hlt, inv.lvlSorted.sublist hsub⟩
  · intro j hj hnot
    have hjn : j < n := by
      have := hnot (n, l) (List.mem_cons_self _ _)
      simp at this
      omega
    by_cases hjs : ∃ e ∈ stack, e.1 = j
    · obtain ⟨e, he, heq⟩ := hjs
      have henot : e ∉ stack.dropWhile (fun t => l ≤ t.2) := by
        intro hmem
        exact hnot e (List.mem_cons_of_mem _ hmem) heq
      have htake : e ∈ stack.takeWhile (fun t => l ≤ t.2) := by
        have hparts : stack.takeWhile (fun t => l ≤ t.2)
            ++ stack.dropWhile (fun t => l ≤ t.2) = stack :=
          List.takeWhile_append_dropWhile _ _
        rw [← hparts] at he
        rcases List.mem_append.mp he with h | h
        · exact h
        · exact absurd h henot
      have hle : l ≤ e.2 := by simpa using List.mem_takeWhile_imp htake
      refine ⟨n, hjn, by omega, ?_⟩
      rw [hl, ← heq, ← (inv.bounded e he).2]
      exact hle
    · push_neg at hjs
      obtain ⟨k, h1, h2, h3⟩ := inv.complete j hjn hjs
      exact ⟨k, h1, by omega, h3⟩
  · intro e he k hek hkn1
    rcases List.mem_cons.mp he with h | h
    · rw [h] at hek ⊢
      simp at hek
      omega
    · rcases Nat.lt_or_ge k n with hkn | hkn
      · exact inv.visible e (hmem' e h) k hek hkn
      · have hk : k = n := by omega
        rw [hk, hl]
        exact hlt e h

/-- C5: the parent list computed by the stack loop coincides with the
nearest-preceding-smaller-depth relation, the declarative reading of the
stack rule. -/
theorem buildParents_eq_nearestSmaller (L : List Nat) :
    buildParents L = (List.range L.length).map (nearestSmallerIndex L) := by
  have main : ∀ (rest : List Nat) (n : Nat) (stack : List (Nat × Nat)),
      L.drop n = rest → StackInv L n stack →
      buildParentsGo (List.enumFrom n rest) stack
        = (List.range' n rest.length).map (nearestSmallerIndex L) := by
    intro rest
    induction rest with
    | nil => intro n stack _ _; rfl
    | cons l rest' ih =>
      intro n stack hdrop inv
      have hLn : L[n]? = some l := by
        have h := List.getElem?_drop L n 0
        rw [hdrop] at h
        simpa using h.symm
      have hln : L.getD n 0 = l := by
        rw [List.getD_eq_getElem?_getD, hLn]
        rfl
      have hdrop' : L.drop (n + 1) = rest' := by
        have h1 := List.drop_drop (l := L) (n := 1) (m := n)
        rw [hdrop] at h1
        simp at h1
        exact h1.symm
      have hstep : buildParentsGo (List.enumFrom n (l :: rest')) stack
          = ((stack.dropWhile (fun t => l ≤ t.2)).head?.map (fun t => t.1))
            :: buildParentsGo (List.enumFrom (n + 1) rest')
                ((n, l) :: stack.dropWhile (fun t => l ≤ t.2)) := rfl
      rw [hstep, parent_eq_nearestSmaller L n l stack inv hln,
        ih (n + 1) _ hdrop' (stackInv_step L n l stack inv hln)]
      rfl
  have base : StackInv L 0 [] := by
    refine ⟨by simp, by simp, by simp, ?_, by simp⟩
    intro j hj
    omega
  have h := main L 0 [] (by simp) base
  have hrange : List.range L.length = List.range' 0 L.length :=
    List.range_eq_range' _
  rw [buildParents, hrange]
  exact h

/-- Membership in a node's derived `children` list is exactly stack
parenthood. -/
theorem mem_childrenOf_iff (levels : List Nat) (p i : Nat) :
    i ∈ childrenOf levels p ↔ (buildParents levels)[i]? = some (some p) := by
  unfold childrenOf
  constructor
  · intro h
    rcases List.mem_map.mp h with ⟨e, he, rfl⟩
    have hf := List.mem_filter.mp he
    have hmem : (buildParents levels)[e.1]? = some e.2 :=
      List.mem_enum_iff_getElem?.mp hf.1
    have he2 : e.2 = some p := by simpa using hf.2
    rw [← he2]
    exact hmem
  · intro h
    refine List.mem_map.mpr ⟨(i, some p), ?_, rfl⟩
    refine List.mem_filter.mpr ⟨?_, by simp⟩
    exact List.mem_enum_iff_getElem?.mpr h

/-- C5 (counterexample to the claim as stated): importing the text
`"  A\n  B"` (first line indented) produces two nodes of depth 1, both
left without a parent — roots of non-zero depth. -/
theorem indented_first_line_roots_not_depth_zero :
    parseLevels ("  A\n  B".toList) = [1, 1] ∧
    buildParents (parseLevels ("  A\n  B".toList)) = [none, none] := by
  constructor
  · decide
  · decide

/-- C5 (amended): bulk import derives the parent–child edges by the stack
rule — each node's parent is the nearest preceding line of strictly
smaller depth, and a node's `children` are exactly the nodes whose stack
parent it is, in line order — and, provided the first non-blank line of
the text has depth 0, every node left without a parent (a root) has
depth 0. -/
theorem populate_tree_stack_edges (text : List Char) :
    (buildParents (parseLevels text)
      = (List.range (parseLevels text).length).map
          (nearestSmallerIndex (parseLevels text))) ∧
    (∀ (p i : Nat), i ∈ childrenOf (parseLevels text) p ↔
      (buildParents (parseLevels text))[i]? = some (some p)) ∧
    ((parseLevels text)[0]? = some 0 →
      ∀ (k : Nat), (buildParents (parseLevels text))[k]? = some none →
        (parseLevels text)[k]? = some 0) :=
  ⟨buildParents_eq_nearestSmaller (parseLevels text),
   fun p i => mem_childrenOf_iff (parseLevels text) p i,
   fun h0 => roots_have_depth_zero (parseLevels text) h0⟩

/-- Witness for C5 (amended) on the text `"A\n  B"`: the first line has
depth 0, node 1 is a child of node 0, and the root-depth clause applies at
the root node 0. -/
theorem populate_tree_stack_edges_witness :
    (parseLevels ("A\n  B".toList))[0]? = some 0 ∧
    1 ∈ childrenOf (parseLevels ("A\n  B".toList)) 0 :=
  ⟨(populate_tree_stack_edges ("A\n  B".toList)).2.2 (by decide) 0 (by decide),
   ((populate_tree_stack_edges ("A\n  B".toList)).2.1 0 1).mpr (by decide)⟩

/-! ## Conflict detection (C4) -/

/-- C4 (counterexample to the claim as stated): with a delete group and two
distinct edit groups on the same target, one edit group is flagged but its
`conflicts_with` does not list the delete group (and the delete group lists
only the other edit group) — the cross-reference is not established for
every delete/edit pair. -/
theorem delete_edit_conflict_not_fully_crossed :
    ∃ g ∈ detectConflicts
        [{ groupId := "delete:P", type := "delete", targetPersonId := "P" },
         { groupId := "edit:P:a", type := "edit", targetPersonId := "P" },
         { groupId := "edit:P:b", type := "edit", targetPersonId := "P" }],
      g.groupId = "edit:P:a" ∧ g.targetPersonId = "P" ∧ g.type = "edit" ∧
      "delete:P" ∉ g.conflictsWith := by
  refine ⟨{ groupId := "edit:P:a", type := "edit", targetPersonId := "P",
            hasConflicts := true, conflictsWith := ["edit:P:b"],
            conflictType := "Multiple different edit suggestions for the same person" },
    ?_, by decide, by decide, by decide, by decide⟩
  decide

/-- C4 (amended): a delete group and a single edit group on the same
target are both conflict-flagged and cross-reference each other; with a
delete group and two distinct edit groups, all three are conflict-flagged,
but only the last edit group in listing order cross-references the delete
group (and vice versa) — the first edit group references only the other
edit group. -/
theorem delete_edit_conflict_flagging (t dId e1 e2 : String) (ht : t ≠ "") :
    (detectConflicts
        [{ groupId := dId, type := "delete", targetPersonId := t },
         { groupId := e1, type := "edit", targetPersonId := t }]
      = [{ groupId := dId, type := "delete", targetPersonId := t,
           hasConflicts := true, conflictsWith := [e1],
           conflictType := "Conflicts with edit suggestion for person " ++ t },
         { groupId := e1, type := "edit", targetPersonId := t,
           hasConflicts := true, conflictsWith := [dId],
           conflictType := "Conflicts with delete suggestion for person " ++ t }]) ∧
    (detectConflicts
        [{ groupId := dId, type := "delete", targetPersonId := t },
         { groupId := e1, type := "edit", targetPersonId := t },
         { groupId := e2, type := "edit", targetPersonId := t }]
      = [{ groupId := dId, type := "delete", targetPersonId := t,
           hasConflicts := true, conflictsWith := [e2],
           conflictType := "Conflicts with edit suggestion for person " ++ t },
         { groupId := e1, type := "edit", targetPersonId := t,
           hasConflicts := true, conflictsWith := [e2],
           conflictType := "Multiple different edit suggestions for the same person" },
         { groupId := e2, type := "edit", targetPersonId := t,
           hasConflicts := true, conflictsWith := [dId, e1],
           conflictType := "Multiple different edit suggestions for the same person" }]) := by
  constructor
  · simp [detectConflicts, distinctTargets, detectBucket, markConflict, updateAt,
      ht, List.enum]
  · simp [detectConflicts, distinctTargets, detectBucket, markConflict, updateAt,
      ht, List.enum]

/-- Witness for C4 (amended) at a concrete target and group ids. -/
theorem delete_edit_conflict_flagging_witness :
    detectConflicts
        [{ groupId := "delete:Q", type := "delete", targetPersonId := "Q" },
         { groupId := "edit:Q:x", type := "edit", targetPersonId := "Q" }]
      = [{ groupId := "delete:Q", type := "delete", targetPersonId := "Q",
           hasConflicts := true, conflictsWith := ["edit:Q:x"],
           conflictType := "Conflicts with edit suggestion for person " ++ "Q" },
         { groupId := "edit:Q:x", type := "edit", targetPersonId := "Q",
           hasConflicts := true, conflictsWith := ["delete:Q"],
           conflictType := "Conflicts with delete suggestion for person " ++ "Q" }] :=
  (delete_edit_conflict_flagging "Q" "delete:Q" "edit:Q:x" "unused" (by decide)).1

/-! ## Permission requests (C8) -/

/-- C8: a permission request for a role outside
{contributor, co-admin, admin} is rejected as BadRequest with nothing
persisted; a request for a role in that set by a user with no pending
request persists exactly one new pending `PermissionRequest` carrying the
requester and the requested role; a second request while one is pending
answers 409 unchanged. -/
theorem request_permission_roles (db : DB) (uid email role msg newId : String) :
    ((role ≠ "contributor" ∧ role ≠ "co-admin" ∧ role ≠ "admin") →
      requestPermission db uid email role msg newId = (400, db)) ∧
    ((role = "contributor" ∨ role = "co-admin" ∨ role = "admin") →
      ¬ (db.permissionRequests.any
          (fun r => r.userId == uid && r.status == "pending")) →
      requestPermission db uid email role msg newId
        = (201, { db with permissionRequests := db.permissionRequests ++
            [{ id := newId, userId := uid, userEmail := email,
               requestedRole := role, message := msg, status := "pending" }] })) ∧
    ((db.permissionRequests.any
        (fun r => r.userId == uid && r.status == "pending")) →
      (role = "contributor" ∨ role = "co-admin" ∨ role = "admin") →
      requestPermission db uid email role msg newId = (409, db)) := by
  have hallowed : ∀ (hin : role = "contributor" ∨ role = "co-admin" ∨ role = "admin"),
      ¬(role ≠ "contributor" ∧ role ≠ "co-admin" ∧ role ≠ "admin") := by
    rintro (h | h | h) ⟨h1, h2, h3⟩
    · exact h1 h
    · exact h2 h
    · exact h3 h
  refine ⟨?_, ?_, ?_⟩
  · intro hbad
    unfold requestPermission
    rw [if_pos hbad]
  · intro hin hnopending
    unfold requestPermission
    rw [if_neg (hallowed hin), if_neg (by simpa using hnopending)]
  · intro hpending hin
    unfold requestPermission
    rw [if_neg (hallowed hin), if_pos (by simpa using hpending)]

/-- Witness for C8: "editor" (and any other role outside the set) is
rejected, a fresh "co-admin" request is persisted pending, and a second
request conflicts. -/
theorem request_permission_roles_witness :
    requestPermission { } "u1" "u1@x" "editor" "m" "r1" = (400, { }) ∧
    requestPermission { } "u1" "u1@x" "co-admin" "m" "r1"
      = (201, { permissionRequests :=
          [{ id := "r1", userId := "u1", userEmail := "u1@x",
             requestedRole := "co-admin", message := "m",
             status := "pending" }] }) ∧
    requestPermission
        { permissionRequests := [{ id := "r1", userId := "u1", status := "pending" }] }
        "u1" "u1@x" "admin" "m" "r2"
      = (409, { permissionRequests :=
          [{ id := "r1", userId := "u1", status := "pending" }] }) :=
  ⟨(request_permission_roles { } "u1" "u1@x" "editor" "m" "r1").1 (by decide),
   (request_permission_roles { } "u1" "u1@x" "co-admin" "m" "r1").2.1
      (by decide) (by decide),
   (request_permission_roles
      { permissionRequests := [{ id := "r1", userId := "u1", status := "pending" }] }
      "u1" "u1@x" "admin" "m" "r2").2.2 (by decide) (by decide)⟩

end FindYourRoot
